import Mathlib

/-!
Shallow embedding of the DineND plate-planner core
(`src/plate_planner/endpoint.py`): the macro parser `parse_num`, the
scoring function `score_plate`, the brute-force plate enumeration loop of
`plan_plate` (with its wall-clock timeout checks modelled by a boolean
oracle indexed by the number of checks performed so far), the stable
ascending sort of the scored list, the GPT gateway `gpt_choose_plate`
(the external LLM call modelled as an arbitrary function from the offered
list to a reply), and the tail of the request handler `plan_plate`.

Python numeric conventions: dish macros are Python ints (the output of
`parse_num`), modelled as `Int`; serving multipliers are the floats
0.5, 1.0, 1.5, 2.0 and all arithmetic the endpoint performs on them
(products with ints, sums, squared differences) is exact in double
precision on this domain, so they are modelled as `ℚ`.  Python's
`list.sort` is a stable ascending sort; any stable sort by the same key
computes the same list, so it is modelled by `List.insertionSort`
(Mathlib's `orderedInsert` places a newly inserted earlier element before
later elements of equal key, which is exactly stability).
-/

namespace DineND

/-- One of the four macro-target / macro-total keys, in the dict insertion
order `calories, protein, carbs, fat` used by the endpoint. -/
inductive Macro where
  | calories | protein | carbs | fat
deriving DecidableEq, Repr

/-- A candidate dish as built in `plan_plate` from a Pinecone match: a name,
a serving-size label, and the four macro fields already normalised to ints
by `parse_num`. -/
structure Dish where
  name : String
  servingSize : String
  calories : Int
  protein : Int
  carbs : Int
  fat : Int
deriving DecidableEq, Repr

/-- The `targets` dict of `plan_plate`: always exactly the four macro keys,
each an int (the request's `…Target` fields, defaulting to 0). -/
structure Targets where
  calories : Int
  protein : Int
  carbs : Int
  fat : Int
deriving DecidableEq, Repr

/-- The `totals` dict computed by `score_plate`: one rational per macro
(dish macro int times fractional serving). -/
structure Totals where
  calories : ℚ
  protein : ℚ
  carbs : ℚ
  fat : ℚ
deriving DecidableEq, Repr

/-- `SERVING_OPTIONS = [0.5, 1.0, 1.5, 2.0]` from the endpoint config. -/
def SERVING_OPTIONS : List ℚ := [1/2, 1, 3/2, 2]

/-- One accumulation step of `score_plate`'s totals loop: add
`itm.get(k, 0) * serv` to each macro total. -/
def addItem (acc : Totals) (p : Dish × ℚ) : Totals :=
  { calories := acc.calories + (p.1.calories : ℚ) * p.2
    protein := acc.protein + (p.1.protein : ℚ) * p.2
    carbs := acc.carbs + (p.1.carbs : ℚ) * p.2
    fat := acc.fat + (p.1.fat : ℚ) * p.2 }

/-- `score_plate(plate, targets)` from the endpoint: fold the plate into a
totals dict, then `err = sum((totals[k] - targets[k])**2 for k in targets
if targets[k])` — a macro contributes only when its target is truthy
(non-zero).  Returns `(err, totals)`. -/
def score_plate (plate : List (Dish × ℚ)) (t : Targets) : ℚ × Totals :=
  let totals := plate.foldl addItem ⟨0, 0, 0, 0⟩
  let err :=
    (if t.calories ≠ 0 then (totals.calories - (t.calories : ℚ)) ^ 2 else 0) +
    (if t.protein ≠ 0 then (totals.protein - (t.protein : ℚ)) ^ 2 else 0) +
    (if t.carbs ≠ 0 then (totals.carbs - (t.carbs : ℚ)) ^ 2 else 0) +
    (if t.fat ≠ 0 then (totals.fat - (t.fat : ℚ)) ^ 2 else 0)
  (err, totals)

/-- Direct summation form of the plate totals (`Σ macro·servings` over the
plate's pairs); proved below to agree with the fold inside `score_plate`. -/
def plateTotals (plate : List (Dish × ℚ)) : Totals :=
  { calories := (plate.map fun p => (p.1.calories : ℚ) * p.2).sum
    protein := (plate.map fun p => (p.1.protein : ℚ) * p.2).sum
    carbs := (plate.map fun p => (p.1.carbs : ℚ) * p.2).sum
    fat := (plate.map fun p => (p.1.fat : ℚ) * p.2).sum }

/-- One entry of the `scored` list of `plan_plate`:
`{"plate": plate, "score": err, "sums": sums}`. -/
structure Scored where
  plate : List (Dish × ℚ)
  score : ℚ
  sums : Totals
deriving DecidableEq, Repr

/-- Build the scored entry for one combination and one serving tuple, as the
body of the innermost loop of `plan_plate` does. -/
def mkScored (t : Targets) (combo : List Dish) (servs : List ℚ) : Scored :=
  let plate := combo.zip servs
  ⟨plate, (score_plate plate t).1, (score_plate plate t).2⟩

/-- `itertools.combinations(l, r)`: all size-`r` subsequences of `l`, in
lexicographic order of positions. -/
def combos : Nat → List Dish → List (List Dish)
  | 0, _ => [[]]
  | _ + 1, [] => []
  | r + 1, x :: xs => ((combos r xs).map (x :: ·)) ++ combos (r + 1) xs

/-- `itertools.product(SERVING_OPTIONS, repeat=r)`: all length-`r` tuples
over the serving options, rightmost position varying fastest. -/
def servTuples : Nat → List (List ℚ)
  | 0 => [[]]
  | r + 1 => SERVING_OPTIONS.flatMap fun s => (servTuples r).map (s :: ·)

/-- The innermost loop of `plan_plate`: iterate the serving tuples for one
combination.  Before each tuple the code evaluates
`time.time() - start_time > 8`; `oracle n` is the value of the `n`-th such
evaluation of the whole enumeration, and a `true` breaks the loop without
appending the current tuple's plate.  Returns the produced entries and the
next check index. -/
def servLoop (oracle : Nat → Bool) (t : Targets) (combo : List Dish) :
    List (List ℚ) → Nat → List Scored × Nat
  | [], n => ([], n)
  | servs :: rest, n =>
    if oracle n then ([], n + 1)
    else
      let out := servLoop oracle t combo rest (n + 1)
      (mkScored t combo servs :: out.1, out.2)

/-- The middle loop of `plan_plate`: iterate the size-`r` combinations; after
each combination's serving loop the code re-evaluates the elapsed-time
condition and breaks the combination loop when it holds. -/
def comboLoop (oracle : Nat → Bool) (t : Targets) (r : Nat) :
    List (List Dish) → Nat → List Scored × Nat
  | [], n => ([], n)
  | combo :: rest, n =>
    let inner := servLoop oracle t combo (servTuples r) n
    if oracle inner.2 then (inner.1, inner.2 + 1)
    else
      let outer := comboLoop oracle t r rest (inner.2 + 1)
      (inner.1 ++ outer.1, outer.2)

/-- The outer loop of `plan_plate` over the plate sizes `r in (2, 3, 4)`;
after each size the elapsed-time condition is evaluated once more and a
`true` breaks the size loop. -/
def sizeLoop (oracle : Nat → Bool) (t : Targets) (candidates : List Dish) :
    List Nat → Nat → List Scored × Nat
  | [], n => ([], n)
  | r :: rest, n =>
    let inner := comboLoop oracle t r (combos r candidates) n
    if oracle inner.2 then (inner.1, inner.2 + 1)
    else
      let outer := sizeLoop oracle t candidates rest (inner.2 + 1)
      (inner.1 ++ outer.1, outer.2)

/-- The `scored` list built by `plan_plate`'s exhaustive combo search, with
its timeout checks driven by `oracle`. -/
def enumerateTimed (candidates : List Dish) (t : Targets) (oracle : Nat → Bool) :
    List Scored :=
  (sizeLoop oracle t candidates [2, 3, 4] 0).1

/-- The same enumeration with the time budget never exceeded: the full
combination space. -/
def enumerateFull (candidates : List Dish) (t : Targets) : List Scored :=
  [2, 3, 4].flatMap fun r =>
    (combos r candidates).flatMap fun combo =>
      (servTuples r).map fun servs => mkScored t combo servs

/-- Ascending comparison on the `score` field, the key of
`scored.sort(key=lambda x: x["score"])`. -/
def scoreLE (a b : Scored) : Prop := a.score ≤ b.score

instance : DecidableRel scoreLE := fun a b => inferInstanceAs (Decidable (a.score ≤ b.score))

instance : IsTotal Scored scoreLE := ⟨fun a b => le_total a.score b.score⟩

instance : IsTrans Scored scoreLE := ⟨fun _ _ _ h h' => le_trans h h'⟩

instance : IsRefl Scored scoreLE := ⟨fun a => le_refl a.score⟩

/-- `scored.sort(key=lambda x: x["score"])`: Python's stable ascending sort,
modelled by stable insertion sort (extensionally equal to any stable sort by
the same key). -/
def sortScored (l : List Scored) : List Scored := l.insertionSort scoreLE

/-- One `{name, servings, servingSize}` record of the response payload. -/
structure Item where
  name : String
  servings : ℚ
  servingSize : String
deriving DecidableEq, Repr

/-- An `{items, totals}` plate record: the shape of the options sent to the
ranker and of the endpoint's final response body. -/
structure PlateResp where
  items : List Item
  totals : Totals
deriving DecidableEq, Repr

/-- Build the `opts_payload` entry for one scored plate: items carry name,
servings and serving-size label; `totals` is the entry's `sums` dict. -/
def toPayload (s : Scored) : PlateResp :=
  ⟨s.plate.map fun p => ⟨p.1.name, p.2, p.1.servingSize⟩, s.sums⟩

/-- Outcome of one ranking-collaborator call as seen by `gpt_choose_plate`:
either the chat call succeeded and `json.loads` parsed its content into a
plate-shaped value, or some exception occurred (network failure, timeout,
unparseable content). -/
inductive RankerReply where
  | parsed (r : PlateResp)
  | failed

/-- `gpt_choose_plate(plates, …)`: raise `InfeasiblePlateError` on an empty
list (mapped to a 422 by `handle_any`), otherwise cap at
`MAX_GPT_PLATES = 30`, call the collaborator, and return whatever JSON it
produced; on any exception fall back to `plates[0]`.  The collaborator is
an arbitrary function of the sent list.  No field of the reply is checked
against the offered options. -/
def gpt_choose_plate (ranker : List PlateResp → RankerReply)
    (plates : List PlateResp) : Except String PlateResp :=
  match plates with
  | [] => .error "No feasible plates to rank"
  | p :: ps =>
    match ranker ((p :: ps).take 30) with
    | .parsed r => .ok r
    | .failed => .ok p

/-- The HTTP outcome of the tail of `plan_plate`: the 504 returned when
`scored` is empty, the 200 with the chosen plate JSON, or the 422 produced
by `handle_any` from an `InfeasiblePlateError`. -/
inductive PlanOutcome where
  | timeout504
  | ok (resp : PlateResp)
  | infeasible422 (msg : String)
deriving DecidableEq, Repr

/-- The tail of `plan_plate` after the candidate list is built: enumerate and
score, return 504 if `scored` is empty, else sort ascending by score, keep
`scored[:10]`, convert to payloads, and return `gpt_choose_plate`'s result
as the response body. -/
def plan_plate (candidates : List Dish) (t : Targets) (oracle : Nat → Bool)
    (ranker : List PlateResp → RankerReply) : PlanOutcome :=
  let scored := enumerateTimed candidates t oracle
  if scored.isEmpty then .timeout504
  else
    let top_opts := (sortScored scored).take 10
    let opts_payload := top_opts.map toPayload
    match gpt_choose_plate ranker opts_payload with
    | .ok r => .ok r
    | .error e => .infeasible422 e

/-! ### Basic lemmas about the enumeration loops -/

/-- With a never-firing timeout oracle the inner serving loop emits one
scored entry per serving tuple, in order. -/
theorem servLoop_never (oracle : Nat → Bool) (h : ∀ n, oracle n = false)
    (t : Targets) (combo : List Dish) :
    ∀ (L : List (List ℚ)) (n : Nat),
      (servLoop oracle t combo L n).1 = L.map (mkScored t combo)
  | [], _ => rfl
  | servs :: rest, n => by
    simp only [servLoop, h n, Bool.false_eq_true, if_false, List.map_cons]
    exact congrArg _ (servLoop_never oracle h t combo rest (n + 1))

/-- With a never-firing timeout oracle the combination loop emits the full
cross product of combinations and serving tuples. -/
theorem comboLoop_never (oracle : Nat → Bool) (h : ∀ n, oracle n = false)
    (t : Targets) (r : Nat) :
    ∀ (CL : List (List Dish)) (n : Nat),
      (comboLoop oracle t r CL n).1 =
        CL.flatMap fun combo => (servTuples r).map (mkScored t combo)
  | [], _ => rfl
  | combo :: rest, n => by
    simp only [comboLoop, h, Bool.false_eq_true, if_false, List.flatMap_cons]
    exact congrArg₂ _ (servLoop_never oracle h t combo _ n)
      (comboLoop_never oracle h t r rest _)

/-- With a never-firing timeout oracle the size loop runs every plate size. -/
theorem sizeLoop_never (oracle : Nat → Bool) (h : ∀ n, oracle n = false)
    (t : Targets) (candidates : List Dish) :
    ∀ (rs : List Nat) (n : Nat),
      (sizeLoop oracle t candidates rs n).1 =
        rs.flatMap fun r =>
          (combos r candidates).flatMap fun combo =>
            (servTuples r).map (mkScored t combo)
  | [], _ => rfl
  | r :: rest, n => by
    simp only [sizeLoop, h, Bool.false_eq_true, if_false, List.flatMap_cons]
    exact congrArg₂ _ (comboLoop_never oracle h t r _ n)
      (sizeLoop_never oracle h t candidates rest _)

/-- When the time budget is never exhausted the timed enumeration produces
exactly the full combination space. -/
theorem enumerateTimed_never (candidates : List Dish) (t : Targets)
    (oracle : Nat → Bool) (h : ∀ n, oracle n = false) :
    enumerateTimed candidates t oracle = enumerateFull candidates t :=
  sizeLoop_never oracle h t candidates [2, 3, 4] 0

/-- Every entry the inner serving loop emits comes from one of its serving
tuples. -/
theorem mem_servLoop {oracle : Nat → Bool} {t : Targets} {combo : List Dish}
    {s : Scored} :
    ∀ {L : List (List ℚ)} {n : Nat}, s ∈ (servLoop oracle t combo L n).1 →
      ∃ servs ∈ L, s = mkScored t combo servs
  | [], _, hs => absurd hs (List.not_mem_nil s)
  | servs :: rest, n, hs => by
    by_cases ho : oracle n
    · simp only [servLoop, ho, if_true] at hs
      exact absurd hs (List.not_mem_nil s)
    · simp only [servLoop, ho, Bool.false_eq_true, if_false, List.mem_cons] at hs
      rcases hs with hs | hs
      · exact ⟨servs, List.mem_cons_self _ _, hs⟩
      · obtain ⟨sv, hsv, he⟩ := mem_servLoop hs
        exact ⟨sv, List.mem_cons_of_mem _ hsv, he⟩

/-- Every entry the combination loop emits comes from one of its
combinations and serving tuples. -/
theorem mem_comboLoop {oracle : Nat → Bool} {t : Targets} {r : Nat}
    {s : Scored} :
    ∀ {CL : List (List Dish)} {n : Nat}, s ∈ (comboLoop oracle t r CL n).1 →
      ∃ combo ∈ CL, ∃ servs ∈ servTuples r, s = mkScored t combo servs
  | [], _, hs => absurd hs (List.not_mem_nil s)
  | combo :: rest, n, hs => by
    by_cases ho : oracle (servLoop oracle t combo (servTuples r) n).2
    · simp only [comboLoop, ho, if_true] at hs
      obtain ⟨sv, hsv, he⟩ := mem_servLoop hs
      exact ⟨combo, List.mem_cons_self _ _, sv, hsv, he⟩
    · simp only [comboLoop, ho, Bool.false_eq_true, if_false, List.mem_append] at hs
      rcases hs with hs | hs
      · obtain ⟨sv, hsv, he⟩ := mem_servLoop hs
        exact ⟨combo, List.mem_cons_self _ _, sv, hsv, he⟩
      · obtain ⟨c, hc, sv, hsv, he⟩ := mem_comboLoop hs
        exact ⟨c, List.mem_cons_of_mem _ hc, sv, hsv, he⟩

/-- Every entry the size loop emits comes from one of its plate sizes. -/
theorem mem_sizeLoop {oracle : Nat → Bool} {t : Targets}
    {candidates : List Dish} {s : Scored} :
    ∀ {rs : List Nat} {n : Nat}, s ∈ (sizeLoop oracle t candidates rs n).1 →
      ∃ r ∈ rs, ∃ combo ∈ combos r candidates, ∃ servs ∈ servTuples r,
        s = mkScored t combo servs
  | [], _, hs => absurd hs (List.not_mem_nil s)
  | r :: rest, n, hs => by
    by_cases ho : oracle (comboLoop oracle t r (combos r candidates) n).2
    · simp only [sizeLoop, ho, if_true] at hs
      obtain ⟨c, hc, sv, hsv, he⟩ := mem_comboLoop hs
      exact ⟨r, List.mem_cons_self _ _, c, hc, sv, hsv, he⟩
    · simp only [sizeLoop, ho, Bool.false_eq_true, if_false, List.mem_append] at hs
      rcases hs with hs | hs
      · obtain ⟨c, hc, sv, hsv, he⟩ := mem_comboLoop hs
        exact ⟨r, List.mem_cons_self _ _, c, hc, sv, hsv, he⟩
      · obtain ⟨r', hr', c, hc, sv, hsv, he⟩ := mem_sizeLoop hs
        exact ⟨r', List.mem_cons_of_mem _ hr', c, hc, sv, hsv, he⟩

/-- Characterization of the entries of the (possibly truncated) `scored`
list: each is the scored entry of a size-2/3/4 combination of candidates
together with a serving tuple of the same size. -/
theorem mem_enumerateTimed {candidates : List Dish} {t : Targets}
    {oracle : Nat → Bool} {s : Scored}
    (hs : s ∈ enumerateTimed candidates t oracle) :
    ∃ r ∈ [2, 3, 4], ∃ combo ∈ combos r candidates, ∃ servs ∈ servTuples r,
      s = mkScored t combo servs :=
  mem_sizeLoop hs

/-! ### Lemmas about combinations, serving tuples, totals and the sort -/

/-- Every size-`r` combination has length `r`. -/
theorem length_of_mem_combos :
    ∀ (r : Nat) (l : List Dish) (c : List Dish), c ∈ combos r l → c.length = r
  | 0, _, c, hc => by
    simp only [combos, List.mem_singleton] at hc
    simp [hc]
  | _ + 1, [], c, hc => absurd hc (List.not_mem_nil c)
  | r + 1, x :: xs, c, hc => by
    simp only [combos, List.mem_append, List.mem_map] at hc
    rcases hc with ⟨c', hc', rfl⟩ | hc
    · simp [length_of_mem_combos r xs c' hc']
    · exact length_of_mem_combos (r + 1) xs c hc

/-- Every size-`r` combination is a subsequence of the candidate list (its
items sit at pairwise distinct candidate positions, in order). -/
theorem sublist_of_mem_combos :
    ∀ (r : Nat) (l : List Dish) (c : List Dish), c ∈ combos r l → c.Sublist l
  | 0, _, c, hc => by
    simp only [combos, List.mem_singleton] at hc
    simp [hc]
  | _ + 1, [], c, hc => absurd hc (List.not_mem_nil c)
  | r + 1, x :: xs, c, hc => by
    simp only [combos, List.mem_append, List.mem_map] at hc
    rcases hc with ⟨c', hc', rfl⟩ | hc
    · exact List.Sublist.cons₂ x (sublist_of_mem_combos r xs c' hc')
    · exact List.Sublist.cons x (sublist_of_mem_combos (r + 1) xs c hc)

/-- `itertools.combinations` with `r` larger than the list yields nothing. -/
theorem combos_eq_nil_of_lt :
    ∀ (r : Nat) (l : List Dish), l.length < r → combos r l = []
  | _ + 1, [], _ => rfl
  | r + 1, x :: xs, h => by
    have hxs : xs.length < r := by simpa [Nat.succ_lt_succ_iff] using h
    have hxs' : xs.length < r + 1 := Nat.lt_succ_of_lt hxs
    simp [combos, combos_eq_nil_of_lt r xs hxs, combos_eq_nil_of_lt (r + 1) xs hxs']

/-- Every serving tuple of rank `r` has length `r`. -/
theorem length_of_mem_servTuples :
    ∀ (r : Nat) (sv : List ℚ), sv ∈ servTuples r → sv.length = r
  | 0, sv, hsv => by
    simp only [servTuples, List.mem_singleton] at hsv
    simp [hsv]
  | r + 1, sv, hsv => by
    simp only [servTuples, List.mem_flatMap, List.mem_map] at hsv
    obtain ⟨s, _, sv', hsv', rfl⟩ := hsv
    simp [length_of_mem_servTuples r sv' hsv']

/-- Every multiplier of a serving tuple is one of the serving options. -/
theorem mem_options_of_mem_servTuples :
    ∀ (r : Nat) (sv : List ℚ), sv ∈ servTuples r → ∀ x ∈ sv, x ∈ SERVING_OPTIONS
  | 0, sv, hsv => by
    simp only [servTuples, List.mem_singleton] at hsv
    simp [hsv]
  | r + 1, sv, hsv => by
    simp only [servTuples, List.mem_flatMap, List.mem_map] at hsv
    obtain ⟨s, hs, sv', hsv', rfl⟩ := hsv
    intro x hx
    rcases List.mem_cons.1 hx with rfl | hx
    · exact hs
    · exact mem_options_of_mem_servTuples r sv' hsv' x hx

/-- The totals fold of `score_plate` adds the macro-weighted sums of the
plate to its accumulator, componentwise. -/
theorem foldl_addItem :
    ∀ (plate : List (Dish × ℚ)) (acc : Totals),
      plate.foldl addItem acc =
        ⟨acc.calories + (plateTotals plate).calories,
         acc.protein + (plateTotals plate).protein,
         acc.carbs + (plateTotals plate).carbs,
         acc.fat + (plateTotals plate).fat⟩
  | [], acc => by simp [plateTotals]
  | p :: ps, acc => by
    simp only [List.foldl_cons, foldl_addItem ps, plateTotals, List.map_cons,
      List.sum_cons, addItem, Totals.mk.injEq]
    refine ⟨by ring, by ring, by ring, by ring⟩

/-- The totals dict `score_plate` returns is exactly the macro-weighted sum
`Σ macro·servings` over the plate's pairs. -/
theorem score_plate_totals (plate : List (Dish × ℚ)) (t : Targets) :
    (score_plate plate t).2 = plateTotals plate := by
  simp [score_plate, foldl_addItem]

/-- The sorted `scored` list is ascending in the score key. -/
theorem sortScored_sorted (l : List Scored) :
    List.Sorted scoreLE (sortScored l) :=
  List.sorted_insertionSort scoreLE l

/-- Sorting permutes the scored list (same entries, multiplicity included). -/
theorem sortScored_perm (l : List Scored) : List.Perm (sortScored l) l :=
  List.perm_insertionSort scoreLE l

/-- The first entry of the sorted list has minimal score among all entries. -/
theorem sortScored_head_min {l : List Scored} {s : Scored} {rest : List Scored}
    (h : sortScored l = s :: rest) : ∀ x ∈ l, s.score ≤ x.score := by
  intro x hx
  have hx' : x ∈ s :: rest := h ▸ (sortScored_perm l).symm.subset hx
  rcases List.mem_cons.1 hx' with rfl | hx'
  · exact le_refl _
  · exact List.rel_of_sorted_cons (h ▸ sortScored_sorted l) x hx'

/-- A stable sort leaves a list with all-equal keys untouched (the modelled
behaviour of Python's stable `list.sort` on ties). -/
theorem sortScored_eq_self_of_const {l : List Scored} {c : ℚ}
    (h : ∀ x ∈ l, x.score = c) : sortScored l = l :=
  List.Sorted.insertionSort_eq
    (List.pairwise_of_forall_mem_list fun a ha b hb => by
      show a.score ≤ b.score
      rw [h a ha, h b hb])

/-! ### Behaviour of the request tail -/

/-- An empty `scored` list makes `plan_plate` return the 504 response. -/
theorem plan_plate_of_empty {candidates : List Dish} {t : Targets}
    {oracle : Nat → Bool} (ranker : List PlateResp → RankerReply)
    (h : enumerateTimed candidates t oracle = []) :
    plan_plate candidates t oracle ranker = .timeout504 := by
  simp [plan_plate, h]

/-- When `scored` is non-empty and the collaborator's reply parses, the
endpoint returns the parsed reply verbatim as the response body. -/
theorem plan_plate_of_parsed {candidates : List Dish} {t : Targets}
    {oracle : Nat → Bool} (resp : PlateResp)
    (h : enumerateTimed candidates t oracle ≠ []) :
    plan_plate candidates t oracle (fun _ => .parsed resp) = .ok resp := by
  have hns : sortScored (enumerateTimed candidates t oracle) ≠ [] := by
    intro hc
    have hp := sortScored_perm (enumerateTimed candidates t oracle)
    rw [hc] at hp
    exact h (List.Perm.eq_nil hp.symm)
  obtain ⟨s, rest, hsr⟩ :=
    List.exists_cons_of_ne_nil hns
  simp [plan_plate, List.isEmpty_iff, h, hsr, gpt_choose_plate]

/-- When `scored` is non-empty and the collaborator call fails (network
error or unparseable content), the endpoint returns the payload of the
first — lowest-scoring — sorted plate. -/
theorem plan_plate_of_failed {candidates : List Dish} {t : Targets}
    {oracle : Nat → Bool} {s : Scored} {rest : List Scored}
    (hsr : sortScored (enumerateTimed candidates t oracle) = s :: rest) :
    plan_plate candidates t oracle (fun _ => .failed) = .ok (toPayload s) := by
  have h : enumerateTimed candidates t oracle ≠ [] := by
    intro hc
    rw [hc] at hsr
    exact absurd ((List.Perm.eq_nil (sortScored_perm [])).symm.trans hsr)
      (by simp)
  simp [plan_plate, List.isEmpty_iff, h, hsr, gpt_choose_plate]

/-! ### MacroParser (`parse_num`) -/

/-- A Python value as `parse_num` can receive one: an int, a (finite) float,
a string, or anything else.  Finite floats are modelled as rationals; the
endpoint's macro fields only ever hold values exactly representable in
double precision. -/
inductive PyVal where
  | int (n : Int)
  | float (q : ℚ)
  | str (s : String)
  | other

/-- Value of a digit run, as Python's `int()` reads a decimal numeral. -/
def digitsVal (ds : List Char) : Nat :=
  ds.foldl (fun a c => a * 10 + (c.toNat - 48)) 0

/-- `re.search(r"\d+", s)`: the first maximal run of decimal digits of `s`,
if any. -/
def firstDigitRun : List Char → Option (List Char)
  | [] => none
  | c :: cs =>
    if c.isDigit then some ((c :: cs).takeWhile Char.isDigit)
    else firstDigitRun cs

/-- `parse_num(x)` from the endpoint: ints and floats go through `int(x)`,
which truncates toward zero (`Int.tdiv`, Python `int(-2.5) = -2`); strings
yield the value of their first digit run, or 0 when there is none;
everything else yields 0. -/
def parse_num : PyVal → Int
  | .int n => n
  | .float q => q.num.tdiv (q.den : Int)
  | .str s =>
    match firstDigitRun s.data with
    | some ds => (digitsVal ds : Int)
    | none => 0
  | .other => 0

/-- On every string input `parse_num` is non-negative. -/
theorem parse_num_str_nonneg (s : String) : 0 ≤ parse_num (.str s) := by
  cases h : firstDigitRun s.data with
  | none => simp [parse_num, h]
  | some ds => simp [parse_num, h]

/-- On every float input `parse_num` truncates toward zero, exactly as
Python's `int(x)` does: the floor for non-negative values and the ceiling
for negative ones. -/
theorem parse_num_float_trunc (q : ℚ) :
    parse_num (.float q) = if 0 ≤ q then ⌊q⌋ else ⌈q⌉ := by
  by_cases hq : 0 ≤ q
  · rw [if_pos hq]
    show q.num.tdiv (q.den : Int) = ⌊q⌋
    rw [Int.tdiv_eq_ediv (Rat.num_nonneg.2 hq) (Int.ofNat_nonneg _),
      Rat.floor_def]
  · rw [if_neg hq]
    have hq' : q < 0 := lt_of_not_ge hq
    show q.num.tdiv (q.den : Int) = ⌈q⌉
    have h1 : q.num.tdiv (q.den : Int) = -((-q.num).tdiv (q.den : Int)) := by
      rw [Int.neg_tdiv, neg_neg]
    have hnn : 0 ≤ -q.num := by
      have := Rat.num_neg.2 hq'
      omega
    rw [h1, Int.tdiv_eq_ediv hnn (Int.ofNat_nonneg _)]
    have hfloor : -q.num / (q.den : Int) = ⌊-q⌋ := by
      rw [Rat.floor_def, Rat.neg_num, Rat.neg_den]
    rw [hfloor, ← neg_neg q, Int.ceil_neg, neg_neg]

/-! ### Spec-side ResultAssembler (for comparison with the code) -/

/-- Modelled from the spec: §4.6 ResultAssembler, which is absent from the
code — "recompute PlateTotals from scratch using the Dish macro data
already validated by MacroParser".  Looks each response item's name up in
the verified candidate Dish records and accumulates `macro · servings`;
used only to compare the implementation's response against the spec's
required totals. -/
def specRecomputeTotals (candidates : List Dish) (items : List Item) : Totals :=
  items.foldl
    (fun acc it =>
      match candidates.find? (fun d => d.name == it.name) with
      | some d => addItem acc (d, it.servings)
      | none => acc)
    ⟨0, 0, 0, 0⟩

/-- When every plate size yields no combinations (candidate list shorter
than every requested size), the size loop emits nothing for any timeout
oracle. -/
theorem sizeLoop_of_no_combos {oracle : Nat → Bool} {t : Targets}
    {candidates : List Dish} :
    ∀ {rs : List Nat}, (∀ r ∈ rs, combos r candidates = []) →
      ∀ n, (sizeLoop oracle t candidates rs n).1 = []
  | [], _, _ => rfl
  | r :: rest, h, n => by
    have hr : combos r candidates = [] := h r (List.mem_cons_self _ _)
    have hrest : ∀ r' ∈ rest, combos r' candidates = [] :=
      fun r' hr' => h r' (List.mem_cons_of_mem _ hr')
    simp only [sizeLoop, hr, comboLoop]
    by_cases ho : oracle n
    · simp [ho]
    · simp [ho, sizeLoop_of_no_combos hrest (n + 1)]

/-- A candidate list with fewer than 2 dishes produces an empty `scored`
list under every timeout oracle. -/
theorem enumerateTimed_of_undersized {candidates : List Dish}
    (h : candidates.length < 2) (t : Targets) (oracle : Nat → Bool) :
    enumerateTimed candidates t oracle = [] := by
  refine sizeLoop_of_no_combos (fun r hr => combos_eq_nil_of_lt r candidates ?_) 0
  have h2 : r = 2 ∨ r = 3 ∨ r = 4 := by simpa using hr
  rcases h2 with rfl | rfl | rfl <;> omega

/-! ### Concrete inputs used by the counterexamples and witnesses -/

/-- A 200-calorie candidate dish. -/
def chicken : Dish := ⟨"Grilled Chicken", "3 oz", 200, 0, 0, 0⟩

/-- A 300-calorie candidate dish. -/
def pasta : Dish := ⟨"Pasta", "1 cup", 300, 0, 0, 0⟩

/-- A calories-only target of 500 kcal (the other targets inactive). -/
def calTargets : Targets := ⟨500, 0, 0, 0⟩

/-- The all-inactive target assignment (every request target 0/absent). -/
def zeroTargets : Targets := ⟨0, 0, 0, 0⟩

/-! ### C1 — the ±10% tolerance band -/

set_option maxRecDepth 40000

/-- C1: the claim is FALSE of the code — `plan_plate` inserts every
enumerated plate into `scored` without testing the tolerance invariant
(the `TOLERANCE` constant is defined but never used).  With candidates
Grilled Chicken (200 kcal) and Pasta (300 kcal) and an active calorie
target of 500, the plate at servings (0.5, 0.5) totals 250 kcal, missing
the target by 250 > 50 = 0.10·500, yet it is a member of the `scored`
list even though the full space is enumerated without any timeout. -/
theorem C1_tolerance_violating_plate_inserted :
    ∃ s ∈ enumerateTimed [chicken, pasta] calTargets (fun _ => false),
      ¬ |s.sums.calories - (calTargets.calories : ℚ)| ≤
        (1 / 10 : ℚ) * (calTargets.calories : ℚ) := by
  refine ⟨mkScored calTargets [chicken, pasta] [1/2, 1/2], ?_, ?_⟩
  · rw [enumerateTimed_never _ _ _ (fun _ => rfl)]
    simp [enumerateFull, combos, servTuples, SERVING_OPTIONS]
  · have h : (mkScored calTargets [chicken, pasta] [1/2, 1/2]).sums =
        plateTotals [(chicken, 1/2), (pasta, 1/2)] := by
      simp [mkScored, score_plate_totals, List.zip]
    rw [h]
    simp [plateTotals, chicken, pasta, calTargets]
    norm_num [abs]

/-! ### C4 — 422 versus 504 on an empty result -/

/-- C4 counterexample: the claim is false — with a single candidate the
enumeration exhausts the full combination space (the timeout oracle never
fires) and finds zero plates, yet the request returns the 504 Timeout
response, not the 422 Infeasible one. -/
theorem C4_exhausted_empty_returns_504 :
    plan_plate [chicken] calTargets (fun _ => false) (fun _ => .failed) =
      .timeout504 ∧
    ∀ msg, plan_plate [chicken] calTargets (fun _ => false) (fun _ => .failed) ≠
      .infeasible422 msg := by
  have h : plan_plate [chicken] calTargets (fun _ => false) (fun _ => .failed) =
      .timeout504 :=
    plan_plate_of_empty _ (enumerateTimed_of_undersized (by decide) _ _)
  exact ⟨h, fun msg hc => by rw [h] at hc; cases hc⟩

/-- C4 amended: `plan_plate` maps EVERY empty enumeration result to the
504 Timeout response, whether the combination space was exhausted or the
time budget ran out; an empty result is never surfaced as 422 Infeasible. -/
theorem C4_empty_always_timeout (candidates : List Dish) (t : Targets)
    (oracle : Nat → Bool) (ranker : List PlateResp → RankerReply)
    (h : enumerateTimed candidates t oracle = []) :
    plan_plate candidates t oracle ranker = .timeout504 ∧
    ∀ msg, plan_plate candidates t oracle ranker ≠ .infeasible422 msg := by
  have h504 := plan_plate_of_empty ranker h
  exact ⟨h504, fun msg hc => by rw [h504] at hc; cases hc⟩

/-- Witness for C4 amended at a concrete input. -/
theorem C4_empty_always_timeout_witness :
    enumerateTimed [chicken] calTargets (fun _ => false) = [] ∧
    plan_plate [chicken] calTargets (fun _ => false) (fun _ => .failed) =
      .timeout504 := by
  have h : enumerateTimed [chicken] calTargets (fun _ => false) = [] :=
    enumerateTimed_of_undersized (by decide) _ _
  exact ⟨h, (C4_empty_always_timeout _ _ _ _ h).1⟩

/-! ### C5 — undersized candidate sets -/

/-- C5 counterexample: the claim is false — with an empty filtered candidate
set the request returns the 504 Timeout response, not the 422 Infeasible
one (there is no undersized-candidate short-circuit in the code). -/
theorem C5_undersized_returns_504 :
    plan_plate [] calTargets (fun _ => false) (fun _ => .failed) =
      .timeout504 ∧
    ∀ msg, plan_plate [] calTargets (fun _ => false) (fun _ => .failed) ≠
      .infeasible422 msg := by
  have h : plan_plate [] calTargets (fun _ => false) (fun _ => .failed) =
      .timeout504 :=
    plan_plate_of_empty _ (enumerateTimed_of_undersized (by decide) _ _)
  exact ⟨h, fun msg hc => by rw [h] at hc; cases hc⟩

/-- C5 amended: a filtered candidate set with fewer than 2 dishes yields
zero combinations for every plate size, so the enumeration loops produce an
empty `scored` list (under every timeout oracle) and the request returns
the 504 Timeout response — never the 422 Infeasible one. -/
theorem C5_undersized_empty_enumeration (candidates : List Dish)
    (h : candidates.length < 2) (t : Targets) (oracle : Nat → Bool)
    (ranker : List PlateResp → RankerReply) :
    enumerateTimed candidates t oracle = [] ∧
    plan_plate candidates t oracle ranker = .timeout504 := by
  have he := enumerateTimed_of_undersized h t oracle
  exact ⟨he, plan_plate_of_empty ranker he⟩

/-- Witness for C5 amended at a concrete input. -/
theorem C5_undersized_empty_enumeration_witness :
    [chicken].length < 2 ∧
    enumerateTimed [chicken] zeroTargets (fun _ => false) = [] ∧
    plan_plate [chicken] zeroTargets (fun _ => false) (fun _ => .failed) =
      .timeout504 :=
  ⟨by decide,
   (C5_undersized_empty_enumeration [chicken] (by decide) zeroTargets
     (fun _ => false) (fun _ => .failed)).1,
   (C5_undersized_empty_enumeration [chicken] (by decide) zeroTargets
     (fun _ => false) (fun _ => .failed)).2⟩

/-! ### C8 — MacroParser -/

/-- C8 counterexample: the claim is false — `parse_num` applied to the int
−5 returns −5, a negative integer (Python `int(x)` passes numeric input
through unchanged rather than clamping it to a non-negative value). -/
theorem C8_negative_int_passes_through :
    parse_num (.int (-5)) = -5 ∧ ¬ 0 ≤ parse_num (.int (-5)) := by
  exact ⟨rfl, by decide⟩

/-- C8 amended: `parse_num` never raises and returns the int unchanged for
int input (so a negative int yields a negative result), the float truncated
toward zero for float input — the floor of a non-negative float and the
ceiling of a negative one, so `int(2.5) = 2` and `int(-2.5) = -2` — the
value of the first digit run (a non-negative integer, 0 when there is
none) for string input, and 0 for any other type. -/
theorem C8_parse_num_behaviour :
    (∀ n : Int, parse_num (.int n) = n) ∧
    (∀ s : String, 0 ≤ parse_num (.str s)) ∧
    (∀ q : ℚ, parse_num (.float q) = if 0 ≤ q then ⌊q⌋ else ⌈q⌉) ∧
    parse_num (.str "12g") = 12 ∧
    parse_num (.str "150 kcal") = 150 ∧
    parse_num (.str "") = 0 ∧
    parse_num (.float (5/2)) = 2 ∧
    parse_num (.float (-5/2)) = -2 ∧
    parse_num .other = 0 :=
  ⟨fun _ => rfl, parse_num_str_nonneg, parse_num_float_trunc,
   by decide, by decide, rfl,
   by with_unfolding_all rfl, by with_unfolding_all rfl, rfl⟩

/-! ### C9 — determinism of the enumerator -/

/-- C9: with the same candidate list and targets, any two runs whose time
budget never expires (no truncation) produce identical `scored` lists —
same plates, same scores, same order — and hence identical sorted
FeasibleSets.  The enumeration is a pure function of `(candidates, t)`
that takes no input from the ranking collaborator, so the result is
independent of the collaborator's behaviour by construction. -/
theorem C9_enumeration_deterministic (candidates : List Dish) (t : Targets)
    (oracle₁ oracle₂ : Nat → Bool) (h₁ : ∀ n, oracle₁ n = false)
    (h₂ : ∀ n, oracle₂ n = false) :
    enumerateTimed candidates t oracle₁ = enumerateTimed candidates t oracle₂ ∧
    sortScored (enumerateTimed candidates t oracle₁) =
      sortScored (enumerateTimed candidates t oracle₂) := by
  have h := (enumerateTimed_never candidates t oracle₁ h₁).trans
    (enumerateTimed_never candidates t oracle₂ h₂).symm
  exact ⟨h, by rw [h]⟩

/-- Witness for C9 at a concrete input. -/
theorem C9_enumeration_deterministic_witness :
    (∀ n, (fun _ : Nat => false) n = false) ∧
    enumerateTimed [chicken, pasta] calTargets (fun _ => false) =
      enumerateTimed [chicken, pasta] calTargets (fun _ => false) :=
  ⟨fun _ => rfl,
   (C9_enumeration_deterministic [chicken, pasta] calTargets _ _
     (fun _ => rfl) (fun _ => rfl)).1⟩

/-! ### C6 — plate shape invariants -/

/-- First of two same-named candidate dishes. -/
def rice1 : Dish := ⟨"Rice", "1 cup", 100, 0, 0, 0⟩

/-- Second of two same-named candidate dishes (Pinecone ids may differ while
the dish name after `id.split("|")[-1]` coincides). -/
def rice2 : Dish := ⟨"Rice", "2 cups", 150, 0, 0, 0⟩

/-- C6 counterexample: the claim's pairwise-distinct-names part is false —
`itertools.combinations` picks distinct candidate positions, not distinct
names, so a candidate list with two entries named "Rice" yields a plate
whose two items share the same dish name. -/
theorem C6_duplicate_names_in_plate :
    ∃ s ∈ enumerateTimed [rice1, rice2] zeroTargets (fun _ => false),
      ¬ (s.plate.map fun p => p.1.name).Nodup := by
  refine ⟨mkScored zeroTargets [rice1, rice2] [1/2, 1/2], ?_, ?_⟩
  · rw [enumerateTimed_never _ _ _ (fun _ => rfl)]
    simp [enumerateFull, combos, servTuples, SERVING_OPTIONS]
  · simp [mkScored, rice1, rice2]

/-- C6 amended: every plate in any produced `scored` list has between 2 and
4 items, every serving multiplier is one of {0.5, 1.0, 1.5, 2.0}, and the
items occupy pairwise distinct candidate positions — so dish names are
pairwise distinct whenever the candidate list's names are, but NOT when the
candidate list itself contains two entries with the same name. -/
theorem C6_plate_shape (candidates : List Dish) (t : Targets)
    (oracle : Nat → Bool) (s : Scored)
    (hs : s ∈ enumerateTimed candidates t oracle) :
    (2 ≤ s.plate.length ∧ s.plate.length ≤ 4) ∧
    (∀ p ∈ s.plate, p.2 ∈ SERVING_OPTIONS) ∧
    ((candidates.map Dish.name).Nodup →
      (s.plate.map fun p => p.1.name).Nodup) := by
  obtain ⟨r, hr, combo, hcombo, servs, hservs, rfl⟩ := mem_enumerateTimed hs
  have hcl : combo.length = r := length_of_mem_combos r candidates combo hcombo
  have hsl : servs.length = r := length_of_mem_servTuples r servs hservs
  have hplate : (mkScored t combo servs).plate = combo.zip servs := rfl
  have hlen : (combo.zip servs).length = r := by
    rw [List.length_zip, hcl, hsl, min_self]
  have hr' : r = 2 ∨ r = 3 ∨ r = 4 := by simpa using hr
  refine ⟨⟨?_, ?_⟩, ?_, ?_⟩
  · rw [hplate, hlen]
    rcases hr' with rfl | rfl | rfl <;> omega
  · rw [hplate, hlen]
    rcases hr' with rfl | rfl | rfl <;> omega
  · intro p hp
    rw [hplate] at hp
    obtain ⟨d, q⟩ := p
    exact mem_options_of_mem_servTuples r servs hservs q (List.of_mem_zip hp).2
  · intro hnd
    rw [hplate]
    have hfst : (combo.zip servs).map Prod.fst = combo :=
      List.map_fst_zip combo servs (by rw [hcl, hsl])
    have hmap : (combo.zip servs).map (fun p => p.1.name) = combo.map Dish.name := by
      calc (combo.zip servs).map (fun p => p.1.name)
          = ((combo.zip servs).map Prod.fst).map Dish.name := by
            rw [List.map_map]
            rfl
        _ = combo.map Dish.name := by rw [hfst]
    rw [hmap]
    exact List.Nodup.sublist
      (List.Sublist.map Dish.name (sublist_of_mem_combos r candidates combo hcombo))
      hnd

/-- Witness for C6 amended at a concrete input. -/
theorem C6_plate_shape_witness :
    mkScored zeroTargets [chicken, pasta] [1/2, 1/2] ∈
      enumerateTimed [chicken, pasta] zeroTargets (fun _ => false) ∧
    (2 ≤ (mkScored zeroTargets [chicken, pasta] [1/2, 1/2]).plate.length ∧
      (mkScored zeroTargets [chicken, pasta] [1/2, 1/2]).plate.length ≤ 4) ∧
    (∀ p ∈ (mkScored zeroTargets [chicken, pasta] [1/2, 1/2]).plate,
      p.2 ∈ SERVING_OPTIONS) := by
  have hmem : mkScored zeroTargets [chicken, pasta] [1/2, 1/2] ∈
      enumerateTimed [chicken, pasta] zeroTargets (fun _ => false) := by
    rw [enumerateTimed_never _ _ _ (fun _ => rfl)]
    simp [enumerateFull, combos, servTuples, SERVING_OPTIONS]
  have h := C6_plate_shape [chicken, pasta] zeroTargets (fun _ => false)
    (mkScored zeroTargets [chicken, pasta] [1/2, 1/2]) hmem
  exact ⟨hmem, h.1, h.2.1⟩

/-! ### C7 — the scoring function and the FeasibleSet order -/

/-- For a non-negative integer the Python truthiness test `targets[k]`
agrees with positivity. -/
theorem ite_ne_eq_ite_pos {a : Int} (h : 0 ≤ a) (q c : ℚ) :
    (if a ≠ 0 then q else c) = (if 0 < a then q else c) := by
  by_cases ha : a = 0
  · simp [ha]
  · have hpos : 0 < a := lt_of_le_of_ne h (Ne.symm ha)
    simp [ha, hpos]

/-- C7: on the spec's Target domain (each target a non-negative integer,
positive = active) the score equals the sum over active macros of the
squared deviation of the recomputed plate totals from the target, inactive
macros contributing zero; the sorted `scored` list is ascending in this
score; and its first element has minimal score among all entries — the
plate `plates[0]` used as the numeric fallback. -/
theorem C7_score_formula_and_order (plate : List (Dish × ℚ)) (t : Targets)
    (h0 : 0 ≤ t.calories) (h1 : 0 ≤ t.protein) (h2 : 0 ≤ t.carbs)
    (h3 : 0 ≤ t.fat) (l : List Scored) :
    (score_plate plate t).1 =
      (if 0 < t.calories then
        ((plateTotals plate).calories - (t.calories : ℚ)) ^ 2 else 0) +
      (if 0 < t.protein then
        ((plateTotals plate).protein - (t.protein : ℚ)) ^ 2 else 0) +
      (if 0 < t.carbs then
        ((plateTotals plate).carbs - (t.carbs : ℚ)) ^ 2 else 0) +
      (if 0 < t.fat then
        ((plateTotals plate).fat - (t.fat : ℚ)) ^ 2 else 0) ∧
    List.Sorted scoreLE (sortScored l) ∧
    (∀ s rest, sortScored l = s :: rest → ∀ x ∈ l, s.score ≤ x.score) := by
  refine ⟨?_, sortScored_sorted l,
    fun s rest hsr x hx => sortScored_head_min hsr x hx⟩
  have htot : plate.foldl addItem ⟨0, 0, 0, 0⟩ = plateTotals plate := by
    have h := foldl_addItem plate ⟨0, 0, 0, 0⟩
    simpa using h
  simp only [score_plate, htot]
  rw [ite_ne_eq_ite_pos h0, ite_ne_eq_ite_pos h1, ite_ne_eq_ite_pos h2,
    ite_ne_eq_ite_pos h3]

/-- Witness for C7 at a concrete input. -/
theorem C7_score_formula_and_order_witness :
    (0 : Int) ≤ calTargets.calories ∧ (0 : Int) ≤ calTargets.protein ∧
    (0 : Int) ≤ calTargets.carbs ∧ (0 : Int) ≤ calTargets.fat ∧
    ((score_plate [(chicken, 1)] calTargets).1 =
      (if 0 < calTargets.calories then
        ((plateTotals [(chicken, 1)]).calories - (calTargets.calories : ℚ)) ^ 2
       else 0) +
      (if 0 < calTargets.protein then
        ((plateTotals [(chicken, 1)]).protein - (calTargets.protein : ℚ)) ^ 2
       else 0) +
      (if 0 < calTargets.carbs then
        ((plateTotals [(chicken, 1)]).carbs - (calTargets.carbs : ℚ)) ^ 2
       else 0) +
      (if 0 < calTargets.fat then
        ((plateTotals [(chicken, 1)]).fat - (calTargets.fat : ℚ)) ^ 2
       else 0) ∧
     List.Sorted scoreLE (sortScored []) ∧
     (∀ s rest, sortScored [] = s :: rest → ∀ x ∈ ([] : List Scored),
       s.score ≤ x.score)) :=
  ⟨by decide, by decide, by decide, by decide,
   C7_score_formula_and_order [(chicken, 1)] calTargets
     (by decide) (by decide) (by decide) (by decide) []⟩

/-! ### Helpers for runs with all targets inactive -/

/-- With every target inactive (zero) the squared-error sum is empty, so
every plate scores 0. -/
theorem score_plate_zero (plate : List (Dish × ℚ)) :
    (score_plate plate zeroTargets).1 = 0 := by
  simp [score_plate, zeroTargets]

/-- With all targets inactive every entry of the `scored` list has score 0. -/
theorem score_eq_zero_of_mem_enum_zero {c : List Dish} {o : Nat → Bool}
    {s : Scored} (hs : s ∈ enumerateTimed c zeroTargets o) : s.score = 0 := by
  obtain ⟨r, _, combo, _, servs, _, rfl⟩ := mem_enumerateTimed hs
  exact score_plate_zero (combo.zip servs)

/-- With all targets inactive the stable sort leaves the `scored` list in
enumeration order. -/
theorem sortScored_enum_zero (c : List Dish) (o : Nat → Bool) :
    sortScored (enumerateTimed c zeroTargets o) =
      enumerateTimed c zeroTargets o :=
  sortScored_eq_self_of_const fun _ hx => score_eq_zero_of_mem_enum_zero hx

/-- The first plate the full enumeration emits is the first two candidates
at the first serving tuple (0.5, 0.5): size 2 precedes 3 and 4, the
lexicographically first combination is the first two candidate positions,
and `itertools.product` starts at the all-0.5 tuple. -/
theorem head?_enumerateFull_two (d₀ d₁ : Dish) (rest : List Dish)
    (t : Targets) :
    (enumerateFull (d₀ :: d₁ :: rest) t).head? =
      some (mkScored t [d₀, d₁] [1/2, 1/2]) := by
  simp [enumerateFull, combos, servTuples, SERVING_OPTIONS]

/-- Cons decomposition of the timed enumeration for a never-firing oracle
and at least two candidates. -/
theorem enum_two_cons (d₀ d₁ : Dish) (rest : List Dish) (t : Targets)
    (oracle : Nat → Bool) (h : ∀ n, oracle n = false) :
    enumerateTimed (d₀ :: d₁ :: rest) t oracle =
      mkScored t [d₀, d₁] [1/2, 1/2] ::
        (enumerateTimed (d₀ :: d₁ :: rest) t oracle).tail := by
  refine List.eq_cons_of_mem_head? ?_
  rw [enumerateTimed_never _ _ _ h, head?_enumerateFull_two]
  exact rfl

/-! ### C2 — provenance of the response totals -/

/-- A collaborator reply whose `totals` field is deliberately wrong: it
names the 200-kcal Grilled Chicken at one serving but reports 999 for
every macro. -/
def bogus : PlateResp := ⟨[⟨"Grilled Chicken", 1, "3 oz"⟩], ⟨999, 999, 999, 999⟩⟩

/-- C2 counterexample: the claim is false — when the collaborator's reply
parses, `plan_plate` returns it verbatim (`jsonify(choice)`), totals field
included, even though recomputing the macro-weighted sum from the verified
Dish records of its items gives 200 kcal, not 999. -/
theorem C2_collaborator_totals_returned :
    plan_plate [chicken, pasta] zeroTargets (fun _ => false)
      (fun _ => .parsed bogus) = .ok bogus ∧
    bogus.totals ≠ specRecomputeTotals [chicken, pasta] bogus.items := by
  constructor
  · refine plan_plate_of_parsed bogus ?_
    rw [enum_two_cons chicken pasta [] zeroTargets _ (fun _ => rfl)]
    exact List.cons_ne_nil _ _
  · simp only [specRecomputeTotals, bogus, chicken, pasta]
    simp [addItem, Totals.mk.injEq]

/-- C2 amended: the response totals are the macro-weighted sum recomputed
from the verified Dish records only on the fallback path (collaborator call
failed or unparseable); when the collaborator's reply parses, the endpoint
returns the reply — totals included — verbatim. -/
theorem C2_totals_recomputed_only_on_fallback (candidates : List Dish)
    (t : Targets) (oracle : Nat → Bool)
    (h : enumerateTimed candidates t oracle ≠ []) :
    (∀ resp, plan_plate candidates t oracle (fun _ => .parsed resp) =
      .ok resp) ∧
    ∃ s ∈ enumerateTimed candidates t oracle,
      plan_plate candidates t oracle (fun _ => .failed) = .ok (toPayload s) ∧
      (toPayload s).totals = plateTotals s.plate := by
  refine ⟨fun resp => plan_plate_of_parsed resp h, ?_⟩
  have hns : sortScored (enumerateTimed candidates t oracle) ≠ [] := by
    intro hc
    have hp := sortScored_perm (enumerateTimed candidates t oracle)
    rw [hc] at hp
    exact h (List.Perm.eq_nil hp.symm)
  obtain ⟨s, rest, hsr⟩ := List.exists_cons_of_ne_nil hns
  have hmem : s ∈ enumerateTimed candidates t oracle :=
    (sortScored_perm _).subset (hsr ▸ List.mem_cons_self s rest)
  refine ⟨s, hmem, plan_plate_of_failed hsr, ?_⟩
  obtain ⟨r, _, combo, _, servs, _, rfl⟩ := mem_enumerateTimed hmem
  show (mkScored t combo servs).sums = plateTotals (mkScored t combo servs).plate
  exact score_plate_totals (combo.zip servs) t

/-- Witness for C2 amended at a concrete input. -/
theorem C2_totals_recomputed_only_on_fallback_witness :
    enumerateTimed [chicken, pasta] zeroTargets (fun _ => false) ≠ [] ∧
    plan_plate [chicken, pasta] zeroTargets (fun _ => false)
      (fun _ => .parsed bogus) = .ok bogus := by
  have h : enumerateTimed [chicken, pasta] zeroTargets (fun _ => false) ≠ [] := by
    rw [enum_two_cons chicken pasta [] zeroTargets _ (fun _ => rfl)]
    exact List.cons_ne_nil _ _
  exact ⟨h, (C2_totals_recomputed_only_on_fallback [chicken, pasta]
    zeroTargets (fun _ => false) h).1 bogus⟩

/-! ### C3 — the ranker gateway -/

/-- A collaborator reply referencing a dish name offered on no plate. -/
def ghost : PlateResp := ⟨[⟨"Phantom Dish", 1, "1 cup"⟩], ⟨0, 0, 0, 0⟩⟩

/-- The single offered plate option of the C3 counterexample. -/
def offered : PlateResp :=
  ⟨[⟨"Grilled Chicken", 1/2, "3 oz"⟩, ⟨"Pasta", 1/2, "1 cup"⟩], ⟨250, 0, 0, 0⟩⟩

/-- C3 counterexample: the claim is false — the gateway performs no
name/servingSize verification: a parsed reply whose item ("Phantom Dish",
"1 cup") matches no offered pair is applied and returned as the choice. -/
theorem C3_foreign_reference_applied :
    gpt_choose_plate (fun _ => .parsed ghost) [offered] = .ok ghost ∧
    ∀ it ∈ ghost.items,
      (it.name, it.servingSize) ∉
        offered.items.map fun o => (o.name, o.servingSize) := by
  refine ⟨rfl, ?_⟩
  intro it hit
  simp only [ghost, List.mem_singleton] at hit
  subst hit
  simp [offered]

/-- C3 amended: the gateway applies any parseable reply verbatim — even one
referencing dish/serving pairs outside the offered set — and only on a
failed or unparseable call does it return `plates[0]`; it never errors on a
non-empty offer list, and in `plan_plate` the offer list is sorted
ascending by score, so that fallback plate has minimal score among all
enumerated plates. -/
theorem C3_gateway_no_verification (p : PlateResp) (ps : List PlateResp) :
    (∀ resp, gpt_choose_plate (fun _ => .parsed resp) (p :: ps) = .ok resp) ∧
    gpt_choose_plate (fun _ => .failed) (p :: ps) = .ok p ∧
    (∀ ranker, ∃ r, gpt_choose_plate ranker (p :: ps) = .ok r) ∧
    (∀ (c : List Dish) (t : Targets) (o : Nat → Bool) (s : Scored)
       (rest : List Scored),
      sortScored (enumerateTimed c t o) = s :: rest →
      plan_plate c t o (fun _ => .failed) = .ok (toPayload s) ∧
      ∀ x ∈ enumerateTimed c t o, s.score ≤ x.score) := by
  refine ⟨fun resp => rfl, rfl, ?_, ?_⟩
  · intro ranker
    cases hr : ranker ((p :: ps).take 30) with
    | parsed r =>
      refine ⟨r, ?_⟩
      show (match ranker ((p :: ps).take 30) with
        | .parsed r => Except.ok r
        | .failed => Except.ok p) = Except.ok r
      rw [hr]
    | failed =>
      refine ⟨p, ?_⟩
      show (match ranker ((p :: ps).take 30) with
        | .parsed r => Except.ok r
        | .failed => Except.ok p) = Except.ok p
      rw [hr]
  · intro c t o s rest hsr
    exact ⟨plan_plate_of_failed hsr, fun x hx => sortScored_head_min hsr x hx⟩

/-- Witness for C3 amended at a concrete input. -/
theorem C3_gateway_no_verification_witness :
    gpt_choose_plate (fun _ => .parsed ghost) [offered] = .ok ghost ∧
    gpt_choose_plate (fun _ => .failed) [offered] = .ok offered ∧
    sortScored (enumerateTimed [chicken, pasta] zeroTargets (fun _ => false)) =
      mkScored zeroTargets [chicken, pasta] [1/2, 1/2] ::
        (enumerateTimed [chicken, pasta] zeroTargets (fun _ => false)).tail ∧
    plan_plate [chicken, pasta] zeroTargets (fun _ => false)
      (fun _ => .failed) =
      .ok (toPayload (mkScored zeroTargets [chicken, pasta] [1/2, 1/2])) := by
  have hsr : sortScored
      (enumerateTimed [chicken, pasta] zeroTargets (fun _ => false)) =
      mkScored zeroTargets [chicken, pasta] [1/2, 1/2] ::
        (enumerateTimed [chicken, pasta] zeroTargets (fun _ => false)).tail := by
    rw [sortScored_enum_zero]
    exact enum_two_cons chicken pasta [] zeroTargets _ (fun _ => rfl)
  have h := C3_gateway_no_verification offered []
  exact ⟨h.1 ghost, h.2.1, hsr,
    (h.2.2.2 [chicken, pasta] zeroTargets (fun _ => false) _ _ hsr).1⟩

/-! ### C10 — ties, stability, and the all-inactive fallback -/

/-- C10: with a stable sort keyed only on the score, equal-score plates
keep enumeration order; with every target inactive every plate scores 0,
the sort leaves the `scored` list untouched, and the numeric fallback plate
(returned when the collaborator fails) is exactly the first two candidates
at servings (0.5, 0.5). -/
theorem C10_zero_targets_fallback (d₀ d₁ : Dish) (rest : List Dish)
    (oracle : Nat → Bool) (h : ∀ n, oracle n = false) :
    (∀ s ∈ enumerateTimed (d₀ :: d₁ :: rest) zeroTargets oracle,
      s.score = 0) ∧
    sortScored (enumerateTimed (d₀ :: d₁ :: rest) zeroTargets oracle) =
      enumerateTimed (d₀ :: d₁ :: rest) zeroTargets oracle ∧
    plan_plate (d₀ :: d₁ :: rest) zeroTargets oracle (fun _ => .failed) =
      .ok (toPayload (mkScored zeroTargets [d₀, d₁] [1/2, 1/2])) := by
  refine ⟨fun s hs => score_eq_zero_of_mem_enum_zero hs,
    sortScored_enum_zero _ _, ?_⟩
  have hsr : sortScored (enumerateTimed (d₀ :: d₁ :: rest) zeroTargets oracle) =
      mkScored zeroTargets [d₀, d₁] [1/2, 1/2] ::
        (enumerateTimed (d₀ :: d₁ :: rest) zeroTargets oracle).tail := by
    rw [sortScored_enum_zero]
    exact enum_two_cons d₀ d₁ rest zeroTargets oracle h
  exact plan_plate_of_failed hsr

/-- Witness for C10 at a concrete input. -/
theorem C10_zero_targets_fallback_witness :
    (∀ n, (fun _ : Nat => false) n = false) ∧
    plan_plate [chicken, pasta] zeroTargets (fun _ => false)
      (fun _ => .failed) =
      .ok (toPayload (mkScored zeroTargets [chicken, pasta] [1/2, 1/2])) :=
  ⟨fun _ => rfl,
   (C10_zero_targets_fallback chicken pasta [] (fun _ => false)
     (fun _ => rfl)).2.2⟩

end DineND
